import Mathlib

/-!
# HepStatTool: `PullPlot/breakdown.cxx`

A shallow embedding of the uncertainty-breakdown driver and of its two helpers
`setParams` (parameter freezing) and `addParams` (group expansion), followed by
the properties established about them.

Conventions of the embedding.
* A C++ `double` is a value of `Dbl`: not-a-number, the two infinities, or a
  finite value carried as a rational.  Only comparison, `abs` and `fabs` are
  performed on doubles by the code under study, and those are exact.
* A `RooRealVar*` is an address (`Ptr`) into a `Store` of parameter records.
* `std::string::find(x) != npos` is `hasSub`.
* What lies outside the file (ROOT, RooFit, `findSigma.cxx`) enters through the record
  `Collaborators`; the statements hold for every choice of it.
* A run of `breakdown` or `addParams` either returns, or ends in `exit(1)`, or reads a
  vector past its end, or uses a null pointer; the last three are the values of `Err`.
* Text written to `std::cout` is not part of the embedding.
-/

namespace HepStatTool

/-! ## Doubles -/

/-- An IEEE double, as far as comparison and absolute value can tell. -/
inductive Dbl where
  | nan : Dbl
  | ninf : Dbl
  | fin : ℚ → Dbl
  | pinf : Dbl
  deriving DecidableEq

namespace Dbl

/-- The comparison `a < b` of two doubles; false as soon as one is not a number. -/
def lt : Dbl → Dbl → Bool
  | nan, _ => false
  | _, nan => false
  | ninf, ninf => false
  | ninf, _ => true
  | fin _, ninf => false
  | fin a, fin b => decide (a < b)
  | fin _, pinf => true
  | pinf, _ => false

/-- The value of `abs(x)` and of `fabs(x)` on a double; under `using namespace std` the
call `abs(correlation)` is `std::abs(double)`. -/
def abs : Dbl → Dbl
  | nan => nan
  | ninf => pinf
  | fin a => fin |a|
  | pinf => pinf

end Dbl

/-! ## Strings -/

/-- The test `s.find(t) != string::npos`: `t` occurs in `s` as a contiguous block. -/
def hasSub (s t : String) : Bool :=
  s.data.tails.any (fun l => t.data.isPrefixOf l)

/-! ## Parameters -/

/-- The state of one `RooRealVar` that the code reads or writes. -/
structure RooRealVar where
  name : String
  val : Dbl
  min : Dbl
  max : Dbl
  isConstant : Bool
  deriving DecidableEq

/-- An address of a `RooRealVar`. -/
abbrev Ptr := Nat

/-- The parameter objects of a workspace, by address. -/
abbrev Store := Ptr → RooRealVar

/-- The call `var->setConstant(b)`. -/
def setConstant (st : Store) (var : Ptr) (b : Bool) : Store :=
  fun q => if q = var then { st q with isConstant := b } else st q

/-- The call `var->setVal(v)`. -/
def setVal (st : Store) (var : Ptr) (v : Dbl) : Store :=
  fun q => if q = var then { st q with val := v } else st q

/-- The call `var->setRange(lo, hi)`. -/
def setRange (st : Store) (var : Ptr) (lo hi : Dbl) : Store :=
  fun q => if q = var then { st q with min := lo, max := hi } else st q

/-! ## `setParams` -/

/-- One turn of the `while` loop of `setParams`, for the parameter `var`.
`correlation` is `fitresult->correlation(name1, name2)`. -/
def setParamsVar (tmp_list : List String) (technique : String)
    (correlation : String → String → Dbl) (poi : Ptr) (corrCutoff : Dbl)
    (st : Store) (var : Ptr) : Store :=
  let varName := (st var).name
  let st1 := if hasSub technique "sub" then setConstant st var false
             else setConstant st var true
  let found := decide (varName ∈ tmp_list)
  let st2 := if found then
               (if hasSub technique "sub" then setConstant st1 var true
                else setConstant st1 var false)
             else st1
  let c := correlation varName (st2 poi).name
  if Dbl.lt (Dbl.abs c) corrCutoff then setConstant st2 var true else st2

/-- The function `setParams`: the loop over the members of `nuis`. -/
def setParams (nuis : List Ptr) (tmp_list : List String) (technique : String)
    (correlation : String → String → Dbl) (poi : Ptr) (corrCutoff : Dbl)
    (st : Store) : Store :=
  nuis.foldl (setParamsVar tmp_list technique correlation poi corrCutoff) st

/-! ## Workspace, snapshots and external collaborators -/

/-- The struct `settings`. -/
structure settings where
  inFileName : String
  wsName : String
  modelConfigName : String
  dataName : String
  poiName : String
  xmlName : String
  technique : String
  catecory2eval : String
  precision : Dbl
  corrCutoff : Dbl
  useMinos : Bool
  folder : String
  loglevel : String

/-- What the code asks of a `ModelConfig`: the set of parameters of interest in
iteration order, the nuisance-parameter set, the global-observable set, and whether a
pdf is there. Each of the three sets may be absent (a null pointer): the code tests
`nuis` and `globs`, and uses the POI set and the pdf untested. -/
structure ModelConfig where
  pois : Option (List Ptr)
  nuis : Option (List Ptr)
  globs : Option (List Ptr)
  pdf : Bool

/-- A named snapshot: for each saved parameter its value and its constancy flag, which
is what loading a snapshot writes back. -/
abbrev Snapshot := List (Ptr × Dbl × Bool)

/-- What the code asks of a `RooWorkspace`: lookup of a `ModelConfig` and of a dataset
by name, the parameter objects, and the named snapshots. -/
structure RooWorkspace where
  obj : String → Option ModelConfig
  data : String → Bool
  vars : Store
  snapshots : String → Option Snapshot

/-- The values and flags that a snapshot of the parameters `params` records. -/
def capture (st : Store) (params : List Ptr) : Snapshot :=
  params.map (fun p => (p, (st p).val, (st p).isConstant))

/-- Writes the saved value and flag back to every parameter of the snapshot. -/
def restore (snap : Snapshot) (st : Store) : Store :=
  fun q => match snap.find? (fun e => e.1 == q) with
    | some (_, v, c) => { st q with val := v, isConstant := c }
    | none => st q

/-- The call `ws->saveSnapshot(name, params)`; an older snapshot of that name is replaced. -/
def saveSnapshot (ws : RooWorkspace) (name : String) (params : List Ptr) : RooWorkspace :=
  { ws with snapshots := fun n => if n = name then some (capture ws.vars params)
                                   else ws.snapshots n }

/-- The call `ws->loadSnapshot(name)`; nothing happens when no such snapshot exists. -/
def loadSnapshot (ws : RooWorkspace) (name : String) : RooWorkspace :=
  match ws.snapshots name with
  | none => ws
  | some snap => { ws with vars := restore snap ws.vars }

/-- A child element of a category: its attributes, name and value, in order. -/
structure Systematic where
  attrs : List (String × String)
  deriving DecidableEq

/-- A category element (a group): its node name, the value of its `breakdown`
attribute (`none` when the element has no such attribute and `GetAttr` answers null),
and its child elements in order. -/
structure Category where
  name : String
  breakdown : Option String
  systematics : List Systematic
  deriving DecidableEq

/-- The children of the root element of a group document, in order. -/
abbrev GroupDoc := List Category

/-- The collaborators outside `breakdown.cxx`: opening the input file and fetching the
workspace (`TFile`, `file->Get`); parsing a group document (`TXMLEngine::ParseFile`,
`none` when the file cannot be parsed); and, for the likelihood `nll` of the model,
`RooMinuit(*nll).migrad()`, `nll->getVal()` and `findSigma` of `findSigma.cxx`, each
reading the current parameters; `migrad` and `findSigma` also leave new parameters. -/
structure Collaborators where
  getWorkspace : String → String → Option RooWorkspace
  parseFile : String → Option GroupDoc
  migrad : Store → Store
  nllVal : Store → Dbl
  findSigma : Store → Dbl → Ptr → Dbl → Int → Dbl × Store

/-- How a run ends when it does not return: `exit(1)`; a read of `pois_up[i]` or
`pois_down[i]` past the end of the vector; the use of a null pointer, dereferenced or
handed to the constructor of `std::string`. The last two are undefined behaviour in
C++; the run is taken to end there. -/
inductive Err where
  | exit1 : Err
  | outOfRange : Err
  | nullPointer : Err
  deriving DecidableEq

/-- The output file of a run: its path, the name of the histogram, its number of bins,
and per bin the label and the content, in bin order. Creating the directory and the
file is taken to succeed. -/
structure Output where
  fileName : String
  histName : String
  nbins : Nat
  bins : List (String × Dbl)
  deriving DecidableEq

/-! ## `breakdown` -/

/-- The split of `dataName` at its first comma, when it has one: the text before and
the text after. -/
def splitAtComma (s : String) : Option (String × String) :=
  match s.data.span (fun c => c != ',') with
  | (pre, _ :: suf) => some (String.mk pre, String.mk suf)
  | (_, []) => none

/-- The first loop over the POIs: value 1, range [-10, 10], constant. -/
def initPois (pois : List Ptr) (st : Store) : Store :=
  pois.foldl (fun s poi =>
    setConstant (setRange (setVal s poi (Dbl.fin 1)) poi (Dbl.fin (-10)) (Dbl.fin 10)) poi true) st

/-- The double that the literal `1.1` denotes: 2476979795053773 / 2^51. -/
def kick : Dbl := Dbl.fin (2476979795053773 / 2251799813685248)

/-- The second loop over the POIs: range [-10, 10], floating, value 1.1. -/
def kickPois (pois : List Ptr) (st : Store) : Store :=
  pois.foldl (fun s poi =>
    setVal (setConstant (setRange s poi (Dbl.fin (-10)) (Dbl.fin 10)) poi false) poi kick) st

/-- The workspace and the two result vectors while the sigmas are computed. -/
structure SigmaState where
  ws : RooWorkspace
  pois_up : List Dbl
  pois_down : List Dbl

/-- One turn of the loop under `catecory2eval == "total"`, for `pois[i]` and
`pois_hat[i]`. -/
def sigmaTurn (ext : Collaborators) (nll_val_true : Dbl) (s : SigmaState)
    (ph : Ptr × Dbl) : SigmaState :=
  let ws1 := loadSnapshot s.ws "tmp_shot"
  let r1 := ext.findSigma ws1.vars nll_val_true ph.1 ph.2 1
  let ws2 := loadSnapshot { ws1 with vars := r1.2 } "tmp_shot"
  let r2 := ext.findSigma ws2.vars nll_val_true ph.1 ph.2 (-1)
  { ws := { ws2 with vars := r2.2 },
    pois_up := s.pois_up ++ [r1.1],
    pois_down := s.pois_down ++ [r2.1] }

/-- The per-group step: `pois_up` and `pois_down` start empty and are filled only when
the category to evaluate is "total". -/
def sigmaStep (ext : Collaborators) (catecory2eval : String) (nll_val_true : Dbl)
    (ws : RooWorkspace) (pois : List Ptr) (pois_hat : List Dbl) : SigmaState :=
  if catecory2eval = "total" then
    (pois.zip pois_hat).foldl (sigmaTurn ext nll_val_true) ⟨ws, [], []⟩
  else ⟨ws, [], []⟩

/-- The loop that prints one line per POI, from index `i` on: it reads `pois_up[i]` and
`pois_down[i]`. -/
def printLoop (pois_up pois_down : List Dbl) : Nat → List (String × Dbl) → Except Err Unit
  | _, [] => .ok ()
  | i, _ :: rest =>
    match pois_up[i]?, pois_down[i]? with
    | some _, some _ => printLoop pois_up pois_down (i + 1) rest
    | _, _ => .error .outOfRange

/-- The loop that fills the histogram, from index `i` on: three bins per POI, holding
`pois_hat[i]`, `fabs(pois_up[i])` and `fabs(pois_down[i])`. -/
def fillHist (pois_up pois_down : List Dbl) :
    Nat → List (String × Dbl) → Except Err (List (String × Dbl))
  | _, [] => .ok []
  | i, (poiName, hat) :: rest =>
    match pois_up[i]?, pois_down[i]? with
    | some up, some down =>
      match fillHist pois_up pois_down (i + 1) rest with
      | .ok bins =>
        .ok ((poiName, hat) :: ("poi_up", Dbl.abs up) :: ("poi_down", Dbl.abs down) :: bins)
      | .error e => .error e
    | _, _ => .error .outOfRange

/-- Lines 143-159 of `breakdown`: the snapshot "nominalNuis" is loaded, the POIs are
released and kicked, the likelihood is minimised, and the parameters are saved as
"tmp_shot". -/
def globalFit (ext : Collaborators) (pois nuis : List Ptr) (ws : RooWorkspace) :
    RooWorkspace :=
  let ws3 := loadSnapshot ws "nominalNuis"
  let ws4 : RooWorkspace := { ws3 with vars := kickPois pois ws3.vars }
  let ws5 : RooWorkspace := { ws4 with vars := ext.migrad ws4.vars }
  saveSnapshot ws5 "tmp_shot" (nuis ++ pois)

/-- Lines 161-201 of `breakdown`, from the workspace `ws` left by the fit: the best-fit
values are read, the sigmas are computed, printed and written to the output file. -/
def evaluate (ext : Collaborators) (config : settings) (pois : List Ptr)
    (ws : RooWorkspace) : Except Err Output :=
  let nll_val_true := ext.nllVal ws.vars
  let pois_hat := pois.map (fun poi => (ws.vars poi).val)
  let s := sigmaStep ext config.catecory2eval nll_val_true ws pois pois_hat
  let named := (pois.map (fun poi => (s.ws.vars poi).name)).zip pois_hat
  match printLoop s.pois_up s.pois_down 0 named with
  | .error e => .error e
  | .ok _ =>
  match fillHist s.pois_up s.pois_down 0 named with
  | .error e => .error e
  | .ok bins =>
    .ok { fileName := "output/" ++ config.folder ++ "/root-files/breakdown_" ++
            config.technique ++ "/" ++ config.catecory2eval ++ ".root",
          histName := config.catecory2eval,
          nbins := 3 * pois.length,
          bins := bins }

/-- Lines 102-107 of `breakdown`: when `dataName` has a comma, the snapshot named after
the comma is loaded and the dataset is the one named before it. The result is the
workspace and the name of the dataset. -/
def openData (ws0 : RooWorkspace) (dataName : String) : RooWorkspace × String :=
  match splitAtComma dataName with
  | some (pre, suf) => (loadSnapshot ws0 suf, pre)
  | none => (ws0, dataName)

/-- The workspace after lines 102-159 of `breakdown`: the data snapshot is loaded, the
POIs are initialised, and the fit is done and saved. -/
def fitted (ext : Collaborators) (ws0 : RooWorkspace) (dataName : String)
    (pois nuis : List Ptr) : RooWorkspace :=
  globalFit ext pois nuis
    { (openData ws0 dataName).1 with vars := initPois pois (openData ws0 dataName).1.vars }

/-- The function `breakdown`, its arguments gathered in `config`. The tests come in the
order of the source; the POI set is dereferenced at line 117 and the pdf at line 151. -/
def breakdown (ext : Collaborators) (config : settings) : Except Err Output :=
  match ext.getWorkspace config.inFileName config.wsName with
  | none => .error .exit1
  | some ws0 =>
  match ws0.obj config.modelConfigName with
  | none => .error .exit1
  | some mc =>
  if (openData ws0 config.dataName).1.data (openData ws0 config.dataName).2 = false
  then .error .exit1 else
  match mc.pois with
  | none => .error .nullPointer
  | some pois =>
  match mc.nuis with
  | none => .error .exit1
  | some nuis =>
  match mc.globs with
  | none => .error .exit1
  | some _ =>
  if mc.pdf = false then .error .nullPointer else
  evaluate ext config pois (fitted ext ws0 config.dataName pois nuis)

/-! ## The group document and `addParams` -/

/-- The arguments of the call of `breakdown` that `addParams` makes for `systName`. -/
def nestedSettings (config : settings) (systName : String) : settings :=
  { config with xmlName := "config/tmp_" ++ systName ++ ".xml", catecory2eval := systName }

/-- The loop over the attributes of one child element. -/
def attrLoop (ext : Collaborators) (config : settings) (isBreakdown : Bool) :
    List (String × String) → List String → Except Err (List String)
  | [], tmp_list => .ok tmp_list
  | (_, systName) :: rest, tmp_list =>
    let tmp_list1 := tmp_list ++ [systName]
    if isBreakdown then
      match breakdown ext (nestedSettings config systName) with
      | .error e => .error e
      | .ok _ => attrLoop ext config isBreakdown rest tmp_list1
    else attrLoop ext config isBreakdown rest tmp_list1

/-- The loop over the child elements of one category. -/
def systLoop (ext : Collaborators) (config : settings) (isBreakdown : Bool) :
    List Systematic → List String → Except Err (List String)
  | [], tmp_list => .ok tmp_list
  | systematic :: rest, tmp_list =>
    match attrLoop ext config isBreakdown systematic.attrs tmp_list with
    | .error e => .error e
    | .ok tmp_list1 => systLoop ext config isBreakdown rest tmp_list1

/-- The loop over the categories; `statistical` stands for the call
`addParams(config, "statistical")`. For a matching category, line 268 builds a
`std::string` from the value of the `breakdown` attribute, null when there is none. -/
def catLoop (ext : Collaborators) (config : settings)
    (statistical : Unit → Option (Except Err (List String))) (catecory2eval : String) :
    List Category → List String → Option (Except Err (List String))
  | [], tmp_list => some (.ok tmp_list)
  | category :: rest, tmp_list =>
    if hasSub category.name catecory2eval = false then
      catLoop ext config statistical catecory2eval rest tmp_list
    else
      match category.breakdown with
      | none => some (.error .nullPointer)
      | some attr =>
      let isBreakdown := hasSub attr "yes"
      let r : Option (Except Err (List String)) :=
        if hasSub config.technique "add" = true ∧ hasSub catecory2eval "statistical" = false
        then statistical () else some (.ok tmp_list)
      match r with
      | none => none
      | some (.error e) => some (.error e)
      | some (.ok tmp_list1) =>
        match systLoop ext config isBreakdown category.systematics tmp_list1 with
        | .error e => some (.error e)
        | .ok tmp_list2 => catLoop ext config statistical catecory2eval rest tmp_list2

/-- The function `addParams`. The function calls itself, so the embedding takes a
bound `fuel` on the depth of calls and answers `none` when the bound is reached. The
file `config->xmlName` is parsed anew by every call; the files that `writeTmpXML`
writes are not modelled, `breakdown` reads none of them. -/
def addParams (ext : Collaborators) (config : settings) :
    Nat → String → Option (Except Err (List String))
  | 0, _ => none
  | fuel + 1, catecory2eval =>
    match ext.parseFile config.xmlName with
    | none => some (.error .exit1)
    | some categories =>
      catLoop ext config (fun _ => addParams ext config fuel "statistical")
        catecory2eval categories []

/-! ## Predicates used in the statements -/

/-- The stores `a` and `b` differ at most in the value and the constancy flag of
parameters of `params`. -/
def AgreesOff (params : List Ptr) (a b : Store) : Prop :=
  ∀ q, (a q).name = (b q).name ∧ (a q).min = (b q).min ∧ (a q).max = (b q).max ∧
    (q ∉ params → a q = b q)

/-- Whatever `findSigma` does when called for a parameter of `params`, it does to the
value and the constancy flag of parameters of `params`. -/
def FindSigmaConfined (ext : Collaborators) (params : List Ptr) : Prop :=
  ∀ (st : Store) (nll_val : Dbl) (poi : Ptr) (hat : Dbl) (dir : Int), poi ∈ params →
    AgreesOff params (ext.findSigma st nll_val poi hat dir).2 st

/-- The name under which `breakdown` looks the dataset up: `dataName` up to its first
comma. -/
def datasetOf (dataName : String) : String :=
  match splitAtComma dataName with
  | some (pre, _) => pre
  | none => dataName

/-- The bins of the output histogram, from the names and best-fit values of the POIs and
from the sigmas up and down: per POI the bin of the best-fit value, labelled by the name
of the POI, then the bins "poi_up" and "poi_down" with the absolute values of the sigmas. -/
def recordBins (named : List (String × Dbl)) (pois_up pois_down : List Dbl) :
    List (String × Dbl) :=
  (named.zip (pois_up.zip pois_down)).flatMap
    (fun x => [(x.1.1, x.1.2), ("poi_up", Dbl.abs x.2.1), ("poi_down", Dbl.abs x.2.2)])

/-- The per-group step of `breakdown` on the fitted workspace. -/
def fittedSigmas (ext : Collaborators) (catecory2eval : String) (ws0 : RooWorkspace)
    (dataName : String) (pois nuis : List Ptr) : SigmaState :=
  sigmaStep ext catecory2eval (ext.nllVal (fitted ext ws0 dataName pois nuis).vars)
    (fitted ext ws0 dataName pois nuis) pois
    (pois.map (fun poi => ((fitted ext ws0 dataName pois nuis).vars poi).val))

/-- The members of a category: the values of all attributes of its child elements, in
document order. -/
def members (category : Category) : List String :=
  category.systematics.flatMap (fun systematic => systematic.attrs.map Prod.snd)

/-- The members of the groups whose name contains `t`, in document order. -/
def membersOf (doc : GroupDoc) (t : String) : List String :=
  (doc.filter (fun category => hasSub category.name t)).flatMap members

/-- The category carries a `breakdown` attribute, and every call of `breakdown` that
`addParams` makes for a member of the category, made only when the value of the
attribute contains "yes", returns. -/
def GroupReturns (ext : Collaborators) (config : settings) (category : Category) : Prop :=
  ∃ attr, category.breakdown = some attr ∧
    (hasSub attr "yes" = true →
      ∀ systName ∈ members category,
        ∃ out, breakdown ext (nestedSettings config systName) = .ok out)

/-! ## Example inputs -/

/-- A store with a nuisance parameter "alpha" at address 0 and a POI "mu" at address 1. -/
def demoStore : Store := fun q =>
  if q = 0 then ⟨"alpha", Dbl.fin 0, Dbl.fin (-5), Dbl.fin 5, false⟩
  else if q = 1 then ⟨"mu", Dbl.fin 1, Dbl.fin (-10), Dbl.fin 10, false⟩
  else ⟨"", Dbl.nan, Dbl.nan, Dbl.nan, false⟩

/-- A correlation matrix in which every parameter is fully correlated to every other. -/
def demoCorrelation : String → String → Dbl := fun _ _ => Dbl.fin 1

/-- A workspace with the ModelConfig "ModelConfig" (POI "mu", nuisance parameter
"alpha", no global observable) and the dataset "obsData". -/
def demoWorkspace : RooWorkspace where
  obj := fun n => if n = "ModelConfig" then some ⟨some [1], some [0], some [], true⟩ else none
  data := fun n => n == "obsData"
  vars := demoStore
  snapshots := fun _ => none

/-- A group document with the groups "statistical", "systA" and "systB". -/
def demoDoc : GroupDoc :=
  [ ⟨"statistical", some "no", [⟨[("name", "gamma_stat")]⟩]⟩,
    ⟨"systA", some "no", [⟨[("name", "alpha")]⟩]⟩,
    ⟨"systB", some "no", [⟨[("name", "beta")]⟩]⟩ ]

/-- Collaborators: the file "ws.root" holds `demoWorkspace` under the name "combined";
the file "config/breakdown.xml" holds `demoDoc`; the fit leaves the parameters where
they are; `findSigma` answers 2 upwards and -3 downwards and leaves the POI constant. -/
def demoCollaborators : Collaborators where
  getWorkspace := fun f w => if f = "ws.root" ∧ w = "combined" then some demoWorkspace else none
  parseFile := fun f => if f = "config/breakdown.xml" then some demoDoc else none
  migrad := fun st => st
  nllVal := fun _ => Dbl.fin 0
  findSigma := fun st _ poi _ dir =>
    (if dir = 1 then Dbl.fin 2 else Dbl.fin (-3), setConstant st poi true)

/-- A group document whose only group, "systA", is a breakdown target. -/
def targetDoc : GroupDoc :=
  [ ⟨"systA", some "yes", [⟨[("name", "alpha")]⟩]⟩ ]

/-- Collaborators for which the input file holds no workspace and every group document
is `targetDoc`. -/
def noWorkspace : Collaborators :=
  { demoCollaborators with
    getWorkspace := fun _ _ => none
    parseFile := fun _ => some targetDoc }

/-- Collaborators as `demoCollaborators`, but every group document is `targetDoc`. -/
def withTargets : Collaborators :=
  { demoCollaborators with parseFile := fun _ => some targetDoc }

/-- Collaborators as `demoCollaborators`, but the model has no POI and every group
document is `targetDoc`. -/
def noPoi : Collaborators :=
  { demoCollaborators with
    getWorkspace := fun _ _ =>
      some { demoWorkspace with obj := fun _ => some ⟨some [], some [0], some [], true⟩ }
    parseFile := fun _ => some targetDoc }

/-- Collaborators as `demoCollaborators`, but `findSigma` answers the upper end of the
range of the POI and then widens that range to [-20, 20]. -/
def rangeChanging : Collaborators :=
  { demoCollaborators with
    findSigma := fun st _ poi _ _ =>
      ((st poi).max, setRange st poi (Dbl.fin (-20)) (Dbl.fin 20)) }

/-- A group document whose only group, "systA", has no `breakdown` attribute. -/
def bareDoc : GroupDoc :=
  [ ⟨"systA", none, [⟨[("name", "alpha")]⟩]⟩ ]

/-- Settings of a run on `demoCollaborators` with the given technique and category. -/
def demoSettings (technique cat : String) : settings where
  inFileName := "ws.root"
  wsName := "combined"
  modelConfigName := "ModelConfig"
  dataName := "obsData"
  poiName := "mu"
  xmlName := "config/breakdown.xml"
  technique := technique
  catecory2eval := cat
  precision := Dbl.fin (1 / 256)
  corrCutoff := Dbl.fin 0
  useMinos := false
  folder := "out"
  loglevel := "DEBUG"

/-! ## Properties of `setParams` -/

section SetParams

variable (tmp_list : List String) (technique : String)
  (correlation : String → String → Dbl) (poi : Ptr) (corrCutoff : Dbl)

theorem setConstant_fields (st : Store) (var : Ptr) (b : Bool) (q : Ptr) :
    (setConstant st var b q).name = (st q).name ∧ (setConstant st var b q).val = (st q).val ∧
    (setConstant st var b q).min = (st q).min ∧ (setConstant st var b q).max = (st q).max := by
  unfold setConstant
  by_cases h : q = var <;> simp [h]

theorem setConstant_other (st : Store) (var : Ptr) (b : Bool) (q : Ptr) (h : q ≠ var) :
    setConstant st var b q = st q := by
  simp [setConstant, h]

theorem setConstant_self (st : Store) (var : Ptr) (b : Bool) :
    (setConstant st var b var).isConstant = b := by
  simp [setConstant]

/-- One loop turn leaves name, value and range of every parameter alone. -/
theorem setParamsVar_fields (st : Store) (var q : Ptr) :
    let st' := setParamsVar tmp_list technique correlation poi corrCutoff st var
    (st' q).name = (st q).name ∧ (st' q).val = (st q).val ∧
    (st' q).min = (st q).min ∧ (st' q).max = (st q).max := by
  simp only [setParamsVar]
  split_ifs <;> simp [setConstant_fields]

/-- One loop turn leaves every parameter but `var` alone. -/
theorem setParamsVar_other (st : Store) (var q : Ptr) (h : q ≠ var) :
    setParamsVar tmp_list technique correlation poi corrCutoff st var q = st q := by
  simp only [setParamsVar]
  split_ifs <;> simp [setConstant_other, h]

/-- The flag that one loop turn leaves on `var`. -/
theorem setParamsVar_self (st : Store) (var : Ptr) :
    (setParamsVar tmp_list technique correlation poi corrCutoff st var var).isConstant =
      (Dbl.lt (Dbl.abs (correlation (st var).name (st poi).name)) corrCutoff
        || (hasSub technique "sub" && decide ((st var).name ∈ tmp_list))
        || (!hasSub technique "sub" && !decide ((st var).name ∈ tmp_list))) := by
  simp only [setParamsVar]
  have hn : ∀ (s : Store) (b : Bool), (setConstant s var b poi).name = (s poi).name :=
    fun s b => (setConstant_fields s var b poi).1
  by_cases hs : hasSub technique "sub" = true <;>
  by_cases hm : (st var).name ∈ tmp_list <;>
  by_cases hc : Dbl.lt (Dbl.abs (correlation (st var).name (st poi).name)) corrCutoff = true <;>
  simp [hs, hm, hc, hn, setConstant_self]

/-- The loop leaves name, value and range of every parameter alone. -/
theorem setParams_fields (nuis : List Ptr) (st : Store) (q : Ptr) :
    let st' := setParams nuis tmp_list technique correlation poi corrCutoff st
    (st' q).name = (st q).name ∧ (st' q).val = (st q).val ∧
    (st' q).min = (st q).min ∧ (st' q).max = (st q).max := by
  induction nuis generalizing st with
  | nil => simp [setParams]
  | cons v vs ih =>
    have h1 := setParamsVar_fields tmp_list technique correlation poi corrCutoff st v q
    have h2 := ih (setParamsVar tmp_list technique correlation poi corrCutoff st v)
    simp only [setParams, List.foldl_cons] at h2 ⊢
    simp only at h1
    exact ⟨h2.1.trans h1.1, h2.2.1.trans h1.2.1, h2.2.2.1.trans h1.2.2.1,
      h2.2.2.2.trans h1.2.2.2⟩

/-- The loop leaves every parameter outside `nuis` alone. -/
theorem setParams_other (nuis : List Ptr) (st : Store) (q : Ptr) (h : q ∉ nuis) :
    setParams nuis tmp_list technique correlation poi corrCutoff st q = st q := by
  induction nuis generalizing st with
  | nil => simp [setParams]
  | cons v vs ih =>
    have hv : q ≠ v := fun e => h (e ▸ List.mem_cons_self _ _)
    have hvs : q ∉ vs := fun e => h (List.mem_cons_of_mem _ e)
    have h2 := ih (setParamsVar tmp_list technique correlation poi corrCutoff st v) hvs
    simp only [setParams, List.foldl_cons] at h2 ⊢
    rw [h2, setParamsVar_other _ _ _ _ _ _ _ _ hv]

/-- The flag the loop leaves on a member of `nuis`, from the names `n` of the
parameter and `m` of the POI. -/
theorem setParams_flag_aux (nuis : List Ptr) (p : Ptr) (n m : String) (st : Store)
    (hn : (st p).name = n) (hm : (st poi).name = m)
    (h : p ∈ nuis ∨ (st p).isConstant =
      (Dbl.lt (Dbl.abs (correlation n m)) corrCutoff
        || (hasSub technique "sub" && decide (n ∈ tmp_list))
        || (!hasSub technique "sub" && !decide (n ∈ tmp_list)))) :
    (setParams nuis tmp_list technique correlation poi corrCutoff st p).isConstant =
      (Dbl.lt (Dbl.abs (correlation n m)) corrCutoff
        || (hasSub technique "sub" && decide (n ∈ tmp_list))
        || (!hasSub technique "sub" && !decide (n ∈ tmp_list))) := by
  induction nuis generalizing st with
  | nil =>
    rcases h with h | h
    · simp at h
    · simpa [setParams] using h
  | cons v vs ih =>
    have hf := setParamsVar_fields tmp_list technique correlation poi corrCutoff st v
    simp only at hf
    have h2 := ih (setParamsVar tmp_list technique correlation poi corrCutoff st v)
      ((hf p).1.trans hn) ((hf poi).1.trans hm)
    simp only [setParams, List.foldl_cons] at h2 ⊢
    apply h2
    by_cases hv : p = v
    · right
      subst hv
      rw [setParamsVar_self, hn, hm]
    · rcases h with h | h
      · rcases List.mem_cons.1 h with h | h
        · exact absurd h hv
        · exact Or.inl h
      · right
        rw [setParamsVar_other _ _ _ _ _ _ _ _ hv]
        exact h

/-- The strict comparison of doubles is transitive. -/
theorem Dbl.lt_trans {a b c : Dbl} (h1 : Dbl.lt a b = true) (h2 : Dbl.lt b c = true) :
    Dbl.lt a c = true := by
  cases a <;> cases b <;> cases c <;> simp_all [Dbl.lt]
  exact h1.trans h2

/-- No double has an absolute value below zero. -/
theorem Dbl.abs_not_lt_zero (c : Dbl) : Dbl.lt (Dbl.abs c) (Dbl.fin 0) = false := by
  cases c <;> simp [Dbl.lt, Dbl.abs]

end SetParams

/-! ## Results on `setParams` -/

/-- C1. After `setParams`, a member `p` of the nuisance set is constant exactly
when `|correlation(p, poi)| < corrCutoff`, or the technique contains "sub" and the
name of `p` is in the member list, or the technique does not contain "sub" and the
name of `p` is not in the member list. -/
theorem setParams_constant_iff (nuis : List Ptr) (tmp_list : List String)
    (technique : String) (correlation : String → String → Dbl) (poi : Ptr)
    (corrCutoff : Dbl) (st : Store) (p : Ptr) (hp : p ∈ nuis) :
    (setParams nuis tmp_list technique correlation poi corrCutoff st p).isConstant = true ↔
      (Dbl.lt (Dbl.abs (correlation (st p).name (st poi).name)) corrCutoff = true
        ∨ (hasSub technique "sub" = true ∧ (st p).name ∈ tmp_list)
        ∨ (hasSub technique "sub" = false ∧ (st p).name ∉ tmp_list)) := by
  rw [setParams_flag_aux tmp_list technique correlation poi corrCutoff nuis p _ _ st rfl rfl
    (Or.inl hp)]
  simp [or_assoc]

/-- C2. With `corrCutoff = 0`, a member of the nuisance set is constant under
technique "add" exactly when it is floating under technique "sub", and floating under
"add" exactly when it is constant under "sub". -/
theorem setParams_add_sub_complement (nuis : List Ptr) (tmp_list : List String)
    (correlation : String → String → Dbl) (poi : Ptr) (st : Store) (p : Ptr)
    (hp : p ∈ nuis) :
    ((setParams nuis tmp_list "add" correlation poi (Dbl.fin 0) st p).isConstant = false ↔
      (setParams nuis tmp_list "sub" correlation poi (Dbl.fin 0) st p).isConstant = true) ∧
    ((setParams nuis tmp_list "sub" correlation poi (Dbl.fin 0) st p).isConstant = false ↔
      (setParams nuis tmp_list "add" correlation poi (Dbl.fin 0) st p).isConstant = true) := by
  rw [setParams_flag_aux tmp_list "add" correlation poi (Dbl.fin 0) nuis p _ _ st rfl rfl
    (Or.inl hp),
    setParams_flag_aux tmp_list "sub" correlation poi (Dbl.fin 0) nuis p _ _ st rfl rfl
    (Or.inl hp)]
  have ha : hasSub "add" "sub" = false := by decide
  have hs : hasSub "sub" "sub" = true := by decide
  simp [ha, hs, Dbl.abs_not_lt_zero]

/-- C3. For cutoffs `corrCutoff1 < corrCutoff2`, every parameter left floating by
`setParams` under `corrCutoff2` is left floating under `corrCutoff1`. -/
theorem setParams_cutoff_monotone (nuis : List Ptr) (tmp_list : List String)
    (technique : String) (correlation : String → String → Dbl) (poi : Ptr)
    (corrCutoff1 corrCutoff2 : Dbl) (hlt : Dbl.lt corrCutoff1 corrCutoff2 = true)
    (st : Store) (p : Ptr)
    (hfloat : (setParams nuis tmp_list technique correlation poi corrCutoff2 st p).isConstant
      = false) :
    (setParams nuis tmp_list technique correlation poi corrCutoff1 st p).isConstant = false := by
  by_cases hp : p ∈ nuis
  · rw [setParams_flag_aux tmp_list technique correlation poi _ nuis p _ _ st rfl rfl
      (Or.inl hp)] at hfloat ⊢
    have hc : Dbl.lt (Dbl.abs (correlation (st p).name (st poi).name)) corrCutoff1 = false := by
      by_contra hcon
      have h1 : Dbl.lt (Dbl.abs (correlation (st p).name (st poi).name)) corrCutoff1 = true := by
        simpa using hcon
      have h2 := Dbl.lt_trans h1 hlt
      simp [h2] at hfloat
    simp only [Bool.or_eq_false_iff] at hfloat ⊢
    exact ⟨⟨hc, hfloat.1.2⟩, hfloat.2⟩
  · rw [setParams_other _ _ _ _ _ _ _ _ hp] at hfloat ⊢
    exact hfloat


/-- The statement of C1 at the nuisance parameter "alpha" of `demoStore`. -/
theorem setParams_constant_iff_witness :
    (0 : Ptr) ∈ [0] ∧
    ((setParams [0] ["alpha"] "add" demoCorrelation 1 (Dbl.fin 0) demoStore 0).isConstant = true ↔
      (Dbl.lt (Dbl.abs (demoCorrelation (demoStore 0).name (demoStore 1).name)) (Dbl.fin 0) = true
        ∨ (hasSub "add" "sub" = true ∧ (demoStore 0).name ∈ ["alpha"])
        ∨ (hasSub "add" "sub" = false ∧ (demoStore 0).name ∉ ["alpha"]))) :=
  ⟨by decide, setParams_constant_iff [0] ["alpha"] "add" demoCorrelation 1 (Dbl.fin 0)
    demoStore 0 (by decide)⟩

/-- The statement of C2 at the nuisance parameter "alpha" of `demoStore`. -/
theorem setParams_add_sub_complement_witness :
    (0 : Ptr) ∈ [0] ∧
    (((setParams [0] ["alpha"] "add" demoCorrelation 1 (Dbl.fin 0) demoStore 0).isConstant = false ↔
      (setParams [0] ["alpha"] "sub" demoCorrelation 1 (Dbl.fin 0) demoStore 0).isConstant = true) ∧
    ((setParams [0] ["alpha"] "sub" demoCorrelation 1 (Dbl.fin 0) demoStore 0).isConstant = false ↔
      (setParams [0] ["alpha"] "add" demoCorrelation 1 (Dbl.fin 0) demoStore 0).isConstant = true)) :=
  ⟨by decide, setParams_add_sub_complement [0] ["alpha"] demoCorrelation 1 demoStore 0
    (by decide)⟩

/-- The statement of C3 at the cutoffs 0 and 1, for "alpha" with correlation 1. -/
theorem setParams_cutoff_monotone_witness :
    Dbl.lt (Dbl.fin 0) (Dbl.fin 1) = true ∧
    (setParams [0] ["alpha"] "add" demoCorrelation 1 (Dbl.fin 1) demoStore 0).isConstant = false ∧
    (setParams [0] ["alpha"] "add" demoCorrelation 1 (Dbl.fin 0) demoStore 0).isConstant = false :=
  ⟨by decide, by decide,
    setParams_cutoff_monotone [0] ["alpha"] "add" demoCorrelation 1 (Dbl.fin 0) (Dbl.fin 1)
      (by decide) demoStore 0 (by decide)⟩

/-- C4, as stated, fails when the POI is itself a member of the nuisance set: with the
POI "mu" (address 1) listed in `nuis`, `setParams` turns its constancy flag on, so the
state of the POI is not the one before the call. -/
theorem setParams_changes_poi_in_nuis :
    (demoStore 1).isConstant = false ∧
    (setParams [0, 1] ["alpha"] "add" demoCorrelation 1 (Dbl.fin 0) demoStore 1).isConstant = true ∧
    setParams [0, 1] ["alpha"] "add" demoCorrelation 1 (Dbl.fin 0) demoStore 1 ≠ demoStore 1 := by
  refine ⟨by decide, by decide, ?_⟩
  intro h
  have h2 := congrArg RooRealVar.isConstant h
  revert h2
  decide

/-- C4, amended. `setParams` changes nothing but constancy flags of members of the
nuisance set: name, value and range of every parameter are kept, and the whole state of
every parameter outside the nuisance set is kept, the POI included when it is not in the
nuisance set. -/
theorem setParams_frame (nuis : List Ptr) (tmp_list : List String) (technique : String)
    (correlation : String → String → Dbl) (poi : Ptr) (corrCutoff : Dbl) (st : Store) :
    (∀ q, (setParams nuis tmp_list technique correlation poi corrCutoff st q).name = (st q).name ∧
      (setParams nuis tmp_list technique correlation poi corrCutoff st q).val = (st q).val ∧
      (setParams nuis tmp_list technique correlation poi corrCutoff st q).min = (st q).min ∧
      (setParams nuis tmp_list technique correlation poi corrCutoff st q).max = (st q).max) ∧
    (∀ q, q ∉ nuis → setParams nuis tmp_list technique correlation poi corrCutoff st q = st q) ∧
    (poi ∉ nuis → setParams nuis tmp_list technique correlation poi corrCutoff st poi = st poi) :=
  ⟨fun q => setParams_fields tmp_list technique correlation poi corrCutoff nuis st q,
   fun q hq => setParams_other tmp_list technique correlation poi corrCutoff nuis st q hq,
   fun hq => setParams_other tmp_list technique correlation poi corrCutoff nuis st poi hq⟩

/-- The amended C4 at the POI "mu" of `demoStore`, which is outside the nuisance set. -/
theorem setParams_frame_witness :
    (1 : Ptr) ∉ [0] ∧
    setParams [0] ["alpha"] "add" demoCorrelation 1 (Dbl.fin 0) demoStore 1 = demoStore 1 :=
  ⟨by decide,
    (setParams_frame [0] ["alpha"] "add" demoCorrelation 1 (Dbl.fin 0) demoStore).2.2
      (by decide)⟩


/-! ## Properties of snapshots and of the sigma loop -/

theorem find_capture (st : Store) (params : List Ptr) (q : Ptr) :
    (capture st params).find? (fun e => e.1 == q) =
      if q ∈ params then some (q, (st q).val, (st q).isConstant) else none := by
  induction params with
  | nil => simp [capture]
  | cons p ps ih =>
    simp only [capture, List.map_cons, List.find?_cons] at ih ⊢
    by_cases h : p = q
    · subst h
      simp
    · have h' : ¬ q = p := fun e => h e.symm
      have hb : (p == q) = false := by simpa using h
      simp [hb, h', ih]

/-- Loading a snapshot gives back the store it was taken from, when the current store
differs from that one in saved values and flags only. -/
theorem restore_capture (params : List Ptr) (stFit st : Store)
    (h : AgreesOff params st stFit) : restore (capture stFit params) st = stFit := by
  funext q
  obtain ⟨hn, hmin, hmax, hq⟩ := h q
  unfold restore
  rw [find_capture]
  by_cases hm : q ∈ params
  · simp only [hm, if_true]
    cases hs : st q
    cases hf : stFit q
    simp_all
  · simp only [hm, if_false]
    exact hq hm

theorem agreesOff_refl (params : List Ptr) (st : Store) : AgreesOff params st st :=
  fun _ => ⟨rfl, rfl, rfl, fun _ => rfl⟩

/-- Loading "tmp_shot" in a workspace that holds the snapshot of `stFit`. -/
theorem loadSnapshot_tmp_shot (params : List Ptr) (stFit : Store) (ws : RooWorkspace)
    (hsnap : ws.snapshots "tmp_shot" = some (capture stFit params))
    (hagree : AgreesOff params ws.vars stFit) :
    loadSnapshot ws "tmp_shot" = { ws with vars := stFit } := by
  unfold loadSnapshot
  rw [hsnap]
  simp [restore_capture params stFit ws.vars hagree]

/-- One turn of the sigma loop, from a workspace that holds the snapshot of `stFit`. -/
theorem sigmaTurn_spec (ext : Collaborators) (params : List Ptr)
    (hconf : FindSigmaConfined ext params) (nll_val_true : Dbl) (stFit : Store)
    (s : SigmaState) (ph : Ptr × Dbl) (hph : ph.1 ∈ params)
    (hsnap : s.ws.snapshots "tmp_shot" = some (capture stFit params))
    (hagree : AgreesOff params s.ws.vars stFit) :
    (sigmaTurn ext nll_val_true s ph).pois_up =
        s.pois_up ++ [(ext.findSigma stFit nll_val_true ph.1 ph.2 1).1] ∧
    (sigmaTurn ext nll_val_true s ph).pois_down =
        s.pois_down ++ [(ext.findSigma stFit nll_val_true ph.1 ph.2 (-1)).1] ∧
    (sigmaTurn ext nll_val_true s ph).ws.snapshots "tmp_shot" = some (capture stFit params) ∧
    AgreesOff params (sigmaTurn ext nll_val_true s ph).ws.vars stFit := by
  have h1 := loadSnapshot_tmp_shot params stFit s.ws hsnap hagree
  have h2 : ∀ v : Store, AgreesOff params v stFit →
      loadSnapshot { obj := s.ws.obj, data := s.ws.data, vars := v,
                     snapshots := s.ws.snapshots } "tmp_shot" =
      { obj := s.ws.obj, data := s.ws.data, vars := stFit, snapshots := s.ws.snapshots } :=
    fun v hv => loadSnapshot_tmp_shot params stFit
      { obj := s.ws.obj, data := s.ws.data, vars := v, snapshots := s.ws.snapshots } hsnap hv
  have h3 := h2 _ (hconf stFit nll_val_true ph.1 ph.2 1 hph)
  simp only [sigmaTurn, h1, h3]
  exact ⟨trivial, trivial, hsnap, hconf stFit nll_val_true ph.1 ph.2 (-1) hph⟩

/-- The whole sigma loop, from a workspace that holds the snapshot of `stFit`. -/
theorem sigmaLoop_spec (ext : Collaborators) (params : List Ptr)
    (hconf : FindSigmaConfined ext params) (nll_val_true : Dbl) (stFit : Store)
    (l : List (Ptr × Dbl)) (hl : ∀ ph ∈ l, ph.1 ∈ params) (s : SigmaState)
    (hsnap : s.ws.snapshots "tmp_shot" = some (capture stFit params))
    (hagree : AgreesOff params s.ws.vars stFit) :
    (l.foldl (sigmaTurn ext nll_val_true) s).pois_up =
        s.pois_up ++ l.map (fun ph => (ext.findSigma stFit nll_val_true ph.1 ph.2 1).1) ∧
    (l.foldl (sigmaTurn ext nll_val_true) s).pois_down =
        s.pois_down ++ l.map (fun ph => (ext.findSigma stFit nll_val_true ph.1 ph.2 (-1)).1) ∧
    (l.foldl (sigmaTurn ext nll_val_true) s).ws.snapshots "tmp_shot" =
        some (capture stFit params) ∧
    AgreesOff params (l.foldl (sigmaTurn ext nll_val_true) s).ws.vars stFit := by
  induction l generalizing s with
  | nil => simp [hsnap, hagree]
  | cons ph rest ih =>
    obtain ⟨hu, hd, hs, ha⟩ :=
      sigmaTurn_spec ext params hconf nll_val_true stFit s ph
        (hl ph (List.mem_cons_self _ _)) hsnap hagree
    obtain ⟨iu, id, is, ia⟩ :=
      ih (fun x hx => hl x (List.mem_cons_of_mem _ hx)) (sigmaTurn ext nll_val_true s ph) hs ha
    simp only [List.foldl_cons, List.map_cons]
    refine ⟨?_, ?_, is, ia⟩
    · rw [iu, hu, List.append_assoc, List.singleton_append]
    · rw [id, hd, List.append_assoc, List.singleton_append]

/-- The sigmas of a "total" evaluation, from any workspace that holds the snapshot of
`stFit` and differs from `stFit` in saved values and flags only. -/
theorem sigmaStep_total_spec (ext : Collaborators) (nuis pois : List Ptr)
    (hconf : FindSigmaConfined ext (nuis ++ pois)) (nll_val_true : Dbl) (stFit : Store)
    (pois_hat : List Dbl) (ws : RooWorkspace)
    (hsnap : ws.snapshots "tmp_shot" = some (capture stFit (nuis ++ pois)))
    (hagree : AgreesOff (nuis ++ pois) ws.vars stFit) :
    (sigmaStep ext "total" nll_val_true ws pois pois_hat).pois_up =
      (pois.zip pois_hat).map (fun ph => (ext.findSigma stFit nll_val_true ph.1 ph.2 1).1) ∧
    (sigmaStep ext "total" nll_val_true ws pois pois_hat).pois_down =
      (pois.zip pois_hat).map (fun ph => (ext.findSigma stFit nll_val_true ph.1 ph.2 (-1)).1) ∧
    (sigmaStep ext "total" nll_val_true ws pois pois_hat).ws.snapshots "tmp_shot" =
      some (capture stFit (nuis ++ pois)) ∧
    AgreesOff (nuis ++ pois) (sigmaStep ext "total" nll_val_true ws pois pois_hat).ws.vars
      stFit := by
  have hl : ∀ ph ∈ pois.zip pois_hat, ph.1 ∈ nuis ++ pois := by
    intro ph hph
    exact List.mem_append_right _ (List.of_mem_zip hph).1
  have h := sigmaLoop_spec ext (nuis ++ pois) hconf nll_val_true stFit (pois.zip pois_hat) hl
    ⟨ws, [], []⟩ hsnap hagree
  simpa [sigmaStep] using h

/-! ## Properties of the loops of `breakdown` -/

theorem sigmaLoop_length (ext : Collaborators) (nll_val_true : Dbl) (l : List (Ptr × Dbl))
    (s : SigmaState) :
    (l.foldl (sigmaTurn ext nll_val_true) s).pois_up.length = s.pois_up.length + l.length ∧
    (l.foldl (sigmaTurn ext nll_val_true) s).pois_down.length =
      s.pois_down.length + l.length := by
  induction l generalizing s with
  | nil => simp
  | cons ph rest ih =>
    obtain ⟨h1, h2⟩ := ih (sigmaTurn ext nll_val_true s ph)
    simp only [List.foldl_cons, List.length_cons]
    rw [h1, h2]
    simp only [sigmaTurn, List.length_append, List.length_singleton]
    omega

/-- After the per-group step of "total", both vectors hold one sigma per POI. -/
theorem sigmaStep_total_length (ext : Collaborators) (nll_val_true : Dbl) (ws : RooWorkspace)
    (pois : List Ptr) (pois_hat : List Dbl) (hlen : pois_hat.length = pois.length) :
    (sigmaStep ext "total" nll_val_true ws pois pois_hat).pois_up.length = pois.length ∧
    (sigmaStep ext "total" nll_val_true ws pois pois_hat).pois_down.length = pois.length := by
  have h := sigmaLoop_length ext nll_val_true (pois.zip pois_hat) ⟨ws, [], []⟩
  simpa [sigmaStep, List.length_zip, hlen] using h

/-- After the per-group step of any other category, both vectors are empty. -/
theorem sigmaStep_other (ext : Collaborators) (catecory2eval : String)
    (hcat : catecory2eval ≠ "total") (nll_val_true : Dbl) (ws : RooWorkspace)
    (pois : List Ptr) (pois_hat : List Dbl) :
    sigmaStep ext catecory2eval nll_val_true ws pois pois_hat = ⟨ws, [], []⟩ := by
  simp [sigmaStep, hcat]

theorem printLoop_ok (pois_up pois_down : List Dbl) (l : List (String × Dbl)) (i : Nat)
    (hu : i + l.length ≤ pois_up.length) (hd : i + l.length ≤ pois_down.length) :
    printLoop pois_up pois_down i l = .ok () := by
  induction l generalizing i with
  | nil => rfl
  | cons x rest ih =>
    simp only [List.length_cons] at hu hd
    have h1 : i < pois_up.length := by omega
    have h2 : i < pois_down.length := by omega
    simp only [printLoop, List.getElem?_eq_getElem h1, List.getElem?_eq_getElem h2]
    exact ih (i + 1) (by omega) (by omega)

theorem fillHist_ok (pois_up pois_down : List Dbl) (l : List (String × Dbl)) (i : Nat)
    (hu : i + l.length ≤ pois_up.length) (hd : i + l.length ≤ pois_down.length) :
    fillHist pois_up pois_down i l =
      .ok (recordBins l (pois_up.drop i) (pois_down.drop i)) := by
  induction l generalizing i with
  | nil => simp [fillHist, recordBins]
  | cons x rest ih =>
    obtain ⟨poiName, hat⟩ := x
    simp only [List.length_cons] at hu hd
    have h1 : i < pois_up.length := by omega
    have h2 : i < pois_down.length := by omega
    have e1 : pois_up.drop i = pois_up[i] :: pois_up.drop (i + 1) :=
      List.drop_eq_getElem_cons h1
    have e2 : pois_down.drop i = pois_down[i] :: pois_down.drop (i + 1) :=
      List.drop_eq_getElem_cons h2
    have hr := ih (i + 1) (by omega) (by omega)
    simp only [fillHist, List.getElem?_eq_getElem h1, List.getElem?_eq_getElem h2, hr]
    rw [e1, e2]
    simp only [recordBins, List.zip_cons_cons, List.flatMap_cons, List.cons_append,
      List.nil_append]

theorem recordBins_length (named : List (String × Dbl)) (pois_up pois_down : List Dbl)
    (hu : named.length ≤ pois_up.length) (hd : named.length ≤ pois_down.length) :
    (recordBins named pois_up pois_down).length = 3 * named.length := by
  induction named generalizing pois_up pois_down with
  | nil => simp [recordBins]
  | cons x rest ih =>
    cases pois_up with
    | nil => simp at hu
    | cons u us =>
      cases pois_down with
      | nil => simp at hd
      | cons d ds =>
        simp only [List.length_cons] at hu hd
        have h := ih us ds (by omega) (by omega)
        simp only [recordBins] at h
        simp only [recordBins, List.zip_cons_cons, List.flatMap_cons, List.length_append,
          List.length_cons, List.length_nil, h]
        omega

theorem printLoop_empty (pois_down : List Dbl) (l : List (String × Dbl)) (i : Nat)
    (hl : l ≠ []) : printLoop [] pois_down i l = .error .outOfRange := by
  cases l with
  | nil => exact absurd rfl hl
  | cons x rest => simp [printLoop]

theorem loadSnapshot_data (ws : RooWorkspace) (name : String) :
    (loadSnapshot ws name).data = ws.data := by
  unfold loadSnapshot
  cases ws.snapshots name <;> rfl

/-- The workspace in which `breakdown` looks the dataset up has the datasets of the
workspace that was opened, and the dataset is looked up as `datasetOf dataName`. -/
theorem openData_dataset (ws0 : RooWorkspace) (dataName : String) :
    (openData ws0 dataName).1.data (openData ws0 dataName).2 =
      ws0.data (datasetOf dataName) := by
  unfold datasetOf openData
  cases h : splitAtComma dataName with
  | none => rfl
  | some x =>
    obtain ⟨pre, suf⟩ := x
    simp [loadSnapshot_data]

/-- On the category "total" the evaluation returns and writes, per POI, the bin of the
best-fit value and the bins of the two sigmas. -/
theorem evaluate_total_ok (ext : Collaborators) (config : settings) (pois : List Ptr)
    (ws : RooWorkspace) (hcat : config.catecory2eval = "total") :
    evaluate ext config pois ws = .ok
      { fileName := "output/" ++ config.folder ++ "/root-files/breakdown_" ++
          config.technique ++ "/" ++ "total" ++ ".root",
        histName := "total", nbins := 3 * pois.length,
        bins := recordBins
          ((pois.map (fun poi =>
            ((sigmaStep ext "total" (ext.nllVal ws.vars) ws pois
              (pois.map (fun poi => (ws.vars poi).val))).ws.vars poi).name)).zip
            (pois.map (fun poi => (ws.vars poi).val)))
          (sigmaStep ext "total" (ext.nllVal ws.vars) ws pois
            (pois.map (fun poi => (ws.vars poi).val))).pois_up
          (sigmaStep ext "total" (ext.nllVal ws.vars) ws pois
            (pois.map (fun poi => (ws.vars poi).val))).pois_down } := by
  unfold evaluate
  simp only [hcat]
  obtain ⟨hu, hd⟩ := sigmaStep_total_length ext (ext.nllVal ws.vars) ws pois
    (pois.map (fun poi => (ws.vars poi).val)) (List.length_map _ _)
  generalize sigmaStep ext "total" (ext.nllVal ws.vars) ws pois
    (pois.map (fun poi => (ws.vars poi).val)) = s at hu hd
  have hn : ((pois.map (fun poi => (s.ws.vars poi).name)).zip
      (pois.map (fun poi => (ws.vars poi).val))).length = pois.length := by
    simp [List.length_zip]
  have hp := printLoop_ok s.pois_up s.pois_down
    ((pois.map (fun poi => (s.ws.vars poi).name)).zip
      (pois.map (fun poi => (ws.vars poi).val))) 0 (by omega) (by omega)
  have hb := fillHist_ok s.pois_up s.pois_down
    ((pois.map (fun poi => (s.ws.vars poi).name)).zip
      (pois.map (fun poi => (ws.vars poi).val))) 0 (by omega) (by omega)
  rw [hp, hb]
  simp

/-- On any other category, with at least one POI, the evaluation reads `pois_up[0]`
past the end of the vector. -/
theorem evaluate_other_out_of_range (ext : Collaborators) (config : settings)
    (pois : List Ptr) (ws : RooWorkspace) (hcat : config.catecory2eval ≠ "total")
    (hpois : pois ≠ []) : evaluate ext config pois ws = .error .outOfRange := by
  unfold evaluate
  simp only [sigmaStep_other ext _ hcat]
  rw [printLoop_empty]
  intro h
  have := congrArg List.length h
  simp [List.length_zip] at this
  exact hpois this

/-- With workspace, ModelConfig, dataset, POI set, nuisance set, global observables and
pdf present, `breakdown` is the evaluation on the fitted workspace. -/
theorem breakdown_eq_evaluate (ext : Collaborators) (config : settings) (ws0 : RooWorkspace)
    (mc : ModelConfig) (pois nuis globs : List Ptr)
    (hws : ext.getWorkspace config.inFileName config.wsName = some ws0)
    (hmc : ws0.obj config.modelConfigName = some mc)
    (hdata : ws0.data (datasetOf config.dataName) = true)
    (hpois : mc.pois = some pois) (hnuis : mc.nuis = some nuis)
    (hglobs : mc.globs = some globs) (hpdf : mc.pdf = true) :
    breakdown ext config = evaluate ext config pois (fitted ext ws0 config.dataName pois nuis) := by
  unfold breakdown
  simp [hws, hmc, hpois, hnuis, hglobs, hpdf, openData_dataset, hdata]

/-- On any category other than "total", with the same objects present and at least one
POI, `breakdown` reads `pois_up[0]` past the end of the vector. -/
theorem breakdown_other_out_of_range (ext : Collaborators) (config : settings)
    (ws0 : RooWorkspace) (mc : ModelConfig) (pois nuis globs : List Ptr)
    (hcat : config.catecory2eval ≠ "total") (hne : pois ≠ [])
    (hws : ext.getWorkspace config.inFileName config.wsName = some ws0)
    (hmc : ws0.obj config.modelConfigName = some mc)
    (hdata : ws0.data (datasetOf config.dataName) = true)
    (hpois : mc.pois = some pois) (hnuis : mc.nuis = some nuis)
    (hglobs : mc.globs = some globs) (hpdf : mc.pdf = true) :
    breakdown ext config = .error .outOfRange := by
  rw [breakdown_eq_evaluate ext config ws0 mc pois nuis globs hws hmc hdata hpois hnuis
    hglobs hpdf]
  exact evaluate_other_out_of_range ext config pois _ hcat hne

/-- The result of `breakdown` depends neither on the group documents nor on `xmlName`. -/
theorem breakdown_ignores_document (ext : Collaborators) (config : settings)
    (parse : String → Option GroupDoc) (xmlName : String) :
    breakdown { ext with parseFile := parse } { config with xmlName := xmlName } =
      breakdown ext config := rfl

/-! ## Properties of the loops of `addParams` -/

theorem attrLoop_ok (ext : Collaborators) (config : settings) (isBreakdown : Bool)
    (attrs : List (String × String)) (tmp_list : List String)
    (h : isBreakdown = true → ∀ systName ∈ attrs.map Prod.snd,
      ∃ out, breakdown ext (nestedSettings config systName) = .ok out) :
    attrLoop ext config isBreakdown attrs tmp_list = .ok (tmp_list ++ attrs.map Prod.snd) := by
  induction attrs generalizing tmp_list with
  | nil => simp [attrLoop]
  | cons a rest ih =>
    obtain ⟨attrName, systName⟩ := a
    have hrest : isBreakdown = true → ∀ x ∈ rest.map Prod.snd,
        ∃ out, breakdown ext (nestedSettings config x) = .ok out :=
      fun hb x hx => h hb x (by simp only [List.map_cons]; exact List.mem_cons_of_mem _ hx)
    have ih' := ih (tmp_list ++ [systName]) hrest
    cases isBreakdown with
    | true =>
      obtain ⟨out, hout⟩ := h rfl systName (by simp)
      simp only [attrLoop, List.map_cons, if_true, hout, ih', List.append_assoc,
        List.singleton_append]
    | false =>
      simp [attrLoop, ih']

theorem systLoop_ok (ext : Collaborators) (config : settings) (isBreakdown : Bool)
    (systematics : List Systematic) (tmp_list : List String)
    (h : isBreakdown = true →
      ∀ systName ∈ systematics.flatMap (fun systematic => systematic.attrs.map Prod.snd),
        ∃ out, breakdown ext (nestedSettings config systName) = .ok out) :
    systLoop ext config isBreakdown systematics tmp_list =
      .ok (tmp_list ++
        systematics.flatMap (fun systematic => systematic.attrs.map Prod.snd)) := by
  induction systematics generalizing tmp_list with
  | nil => simp [systLoop]
  | cons x rest ih =>
    have h1 := attrLoop_ok ext config isBreakdown x.attrs tmp_list
      (fun hb v hv => h hb v (by simp only [List.flatMap_cons]; exact List.mem_append_left _ hv))
    have h2 := ih (tmp_list ++ x.attrs.map Prod.snd)
      (fun hb v hv => h hb v (by simp only [List.flatMap_cons]; exact List.mem_append_right _ hv))
    simp only [systLoop, h1, h2, List.flatMap_cons, List.append_assoc]

/-- The loops over one category append its members, when the nested runs return. -/
theorem systLoop_category (ext : Collaborators) (config : settings) (category : Category)
    (attr : String) (tmp_list : List String)
    (h : hasSub attr "yes" = true → ∀ systName ∈ members category,
      ∃ out, breakdown ext (nestedSettings config systName) = .ok out) :
    systLoop ext config (hasSub attr "yes") category.systematics tmp_list =
      .ok (tmp_list ++ members category) :=
  systLoop_ok ext config _ category.systematics tmp_list h

/-- The loop over the categories when the statistical group is not added: the members
of all matching categories are appended, in document order. -/
theorem catLoop_flat (ext : Collaborators) (config : settings)
    (statistical : Unit → Option (Except Err (List String))) (t : String)
    (hflat : ¬ (hasSub config.technique "add" = true ∧ hasSub t "statistical" = false))
    (categories : List Category) (tmp_list : List String)
    (hn : ∀ c ∈ categories, hasSub c.name t = true → GroupReturns ext config c) :
    catLoop ext config statistical t categories tmp_list =
      some (.ok (tmp_list ++ membersOf categories t)) := by
  induction categories generalizing tmp_list with
  | nil => simp [catLoop, membersOf]
  | cons c rest ih =>
    have hrest : ∀ x ∈ rest, hasSub x.name t = true → GroupReturns ext config x :=
      fun x hx => hn x (List.mem_cons_of_mem _ hx)
    by_cases hc : hasSub c.name t = true
    · obtain ⟨attr, hattr, hnest⟩ := hn c (List.mem_cons_self _ _) hc
      have h1 := systLoop_category ext config c attr tmp_list hnest
      have h2 := ih (tmp_list ++ members c) hrest
      simp only [catLoop, hc, hattr, hflat, if_false, h1, h2, membersOf, List.filter_cons,
        if_true, List.flatMap_cons, List.append_assoc]
      simp
    · have hc' : hasSub c.name t = false := by simpa using hc
      have h2 := ih tmp_list hrest
      simp only [catLoop, hc', if_true, h2, membersOf, List.filter_cons]
      simp

/-- The loop over the categories when no category matches: nothing is appended. -/
theorem catLoop_no_match (ext : Collaborators) (config : settings)
    (statistical : Unit → Option (Except Err (List String))) (t : String)
    (categories : List Category) (tmp_list : List String)
    (hno : ∀ c ∈ categories, hasSub c.name t = false) :
    catLoop ext config statistical t categories tmp_list = some (.ok tmp_list) := by
  induction categories generalizing tmp_list with
  | nil => simp [catLoop]
  | cons c rest ih =>
    simp only [catLoop, hno c (List.mem_cons_self _ _), if_true]
    exact ih tmp_list (fun x hx => hno x (List.mem_cons_of_mem _ hx))

/-- The loop over the categories when the statistical group is added: at every matching
category the list is replaced by the statistical list, then the members are appended. -/
theorem catLoop_add (ext : Collaborators) (config : settings)
    (statistical : Unit → Option (Except Err (List String))) (t : String)
    (stat : List String)
    (hadd : hasSub config.technique "add" = true ∧ hasSub t "statistical" = false)
    (hstat : statistical () = some (.ok stat))
    (categories : List Category) (tmp_list : List String)
    (hn : ∀ c ∈ categories, hasSub c.name t = true → GroupReturns ext config c) :
    catLoop ext config statistical t categories tmp_list =
      some (.ok (match (categories.filter (fun c => hasSub c.name t)).getLast? with
        | none => tmp_list
        | some c => stat ++ members c)) := by
  induction categories generalizing tmp_list with
  | nil => simp [catLoop]
  | cons c rest ih =>
    have hrest : ∀ x ∈ rest, hasSub x.name t = true → GroupReturns ext config x :=
      fun x hx => hn x (List.mem_cons_of_mem _ hx)
    by_cases hc : hasSub c.name t = true
    · obtain ⟨attr, hattr, hnest⟩ := hn c (List.mem_cons_self _ _) hc
      have h1 := systLoop_category ext config c attr stat hnest
      have h2 := ih (stat ++ members c) hrest
      simp only [catLoop, hc, hattr, hadd, and_self, if_true, hstat, h1, h2, List.filter_cons]
      cases hf : List.filter (fun c => hasSub c.name t) rest with
      | nil => simp
      | cons y ys =>
        have hl := List.getLast?_eq_getLast (y :: ys) (List.cons_ne_nil _ _)
        simp [List.getLast?_cons_cons, hl]
    · have hc' : hasSub c.name t = false := by simpa using hc
      have h2 := ih tmp_list hrest
      simp only [catLoop, hc', if_true, h2, List.filter_cons]
      simp

/-- The loop over the categories stops at the first matching category that has no
`breakdown` attribute. -/
theorem catLoop_no_attribute (ext : Collaborators) (config : settings)
    (statistical : Unit → Option (Except Err (List String))) (t : String)
    (c : Category) (rest : List Category) (tmp_list : List String)
    (hc : hasSub c.name t = true) (hattr : c.breakdown = none) :
    catLoop ext config statistical t (c :: rest) tmp_list = some (.error .nullPointer) := by
  simp [catLoop, hc, hattr]

/-- The result of `addParams` when the statistical group is not added. -/
theorem addParams_flat (ext : Collaborators) (config : settings) (doc : GroupDoc)
    (t : String) (fuel : Nat)
    (hflat : ¬ (hasSub config.technique "add" = true ∧ hasSub t "statistical" = false))
    (hdoc : ext.parseFile config.xmlName = some doc) (hfuel : 1 ≤ fuel)
    (hn : ∀ c ∈ doc, hasSub c.name t = true → GroupReturns ext config c) :
    addParams ext config fuel t = some (.ok (membersOf doc t)) := by
  obtain ⟨k, rfl⟩ : ∃ k, fuel = k + 1 := ⟨fuel - 1, by omega⟩
  simp only [addParams, hdoc]
  rw [catLoop_flat ext config _ t hflat doc [] hn]
  simp

/-- The result of `addParams` when the statistical group is added. -/
theorem addParams_add (ext : Collaborators) (config : settings) (doc : GroupDoc)
    (t : String) (fuel : Nat)
    (hadd : hasSub config.technique "add" = true ∧ hasSub t "statistical" = false)
    (hdoc : ext.parseFile config.xmlName = some doc) (hfuel : 2 ≤ fuel)
    (hn : ∀ c ∈ doc, hasSub c.name t = true ∨ hasSub c.name "statistical" = true →
      GroupReturns ext config c) :
    addParams ext config fuel t =
      some (.ok (match (doc.filter (fun c => hasSub c.name t)).getLast? with
        | none => []
        | some c => membersOf doc "statistical" ++ members c)) := by
  obtain ⟨k, rfl⟩ : ∃ k, fuel = k + 1 := ⟨fuel - 1, by omega⟩
  have hs : hasSub "statistical" "statistical" = true := by decide
  have hstat := addParams_flat ext config doc "statistical" k (by simp [hs]) hdoc (by omega)
    (fun c hc h => hn c hc (Or.inr h))
  simp only [addParams, hdoc]
  exact catLoop_add ext config _ t _ hadd hstat doc [] (fun c hc h => hn c hc (Or.inl h))

/-- The test `hasSub s t` holds exactly when the characters of `t` are a contiguous
block of the characters of `s`. -/
theorem hasSub_iff_infix (s t : String) : hasSub s t = true ↔ t.data <:+: s.data := by
  unfold hasSub
  rw [List.any_eq_true]
  constructor
  · rintro ⟨l, hl, hp⟩
    rw [List.mem_tails] at hl
    rw [List.isPrefixOf_iff_prefix] at hp
    exact hp.isInfix.trans hl.isInfix
  · intro h
    obtain ⟨l, hp, hs⟩ := List.infix_iff_prefix_suffix.1 h
    exact ⟨l, (List.mem_tails _ _).2 hs, List.isPrefixOf_iff_prefix.2 hp⟩

/-- The members of the groups whose name contains `t`. -/
theorem mem_membersOf (doc : GroupDoc) (t m : String) :
    m ∈ membersOf doc t ↔ ∃ c ∈ doc, t.data <:+: c.name.data ∧ m ∈ members c := by
  simp only [membersOf, List.mem_flatMap, List.mem_filter, hasSub_iff_infix]
  constructor
  · rintro ⟨c, ⟨hc, ht⟩, hm⟩
    exact ⟨c, hc, ht, hm⟩
  · rintro ⟨c, hc, ht, hm⟩
    exact ⟨c, ⟨hc, ht⟩, hm⟩

/-- No group of `demoDoc` is a breakdown target, so `addParams` makes no nested run. -/
theorem demoDoc_returns (config : settings) :
    ∀ c ∈ demoDoc, GroupReturns demoCollaborators config c := by
  intro c hc
  refine ⟨"no", ?_, fun h => absurd h (by decide)⟩
  revert c
  decide

/-- On a model without POI the nested run for the member "alpha" of the breakdown target
"systA" returns. -/
theorem targetDoc_returns (technique t : String) :
    ∀ c ∈ targetDoc, GroupReturns noPoi (demoSettings technique t) c := by
  intro c hc
  simp only [targetDoc, List.mem_singleton] at hc
  subst hc
  refine ⟨"yes", rfl, fun _ systName hs => ?_⟩
  simp only [members, List.flatMap_cons, List.flatMap_nil, List.map_cons, List.map_nil,
    List.append_nil, List.mem_singleton] at hs
  subst hs
  exact ⟨_, rfl⟩

/-- The `findSigma` of `demoCollaborators` only sets the constancy flag of the POI it is
called for. -/
theorem demo_findSigma_confined : FindSigmaConfined demoCollaborators ([0] ++ [1]) := by
  intro st _ poi _ _ hpoi
  show AgreesOff _ (setConstant st poi true) st
  intro q
  have hf := setConstant_fields st poi true q
  refine ⟨hf.1, hf.2.2.1, hf.2.2.2, fun hq => ?_⟩
  exact setConstant_other st poi true q (fun e => hq (e ▸ hpoi))

/-! ## Results on `breakdown` -/

/-- C9, as stated, fails for a `findSigma` that changes a range, which no snapshot
records: with `rangeChanging`, the search upwards for "mu" widens the range of "mu" to
[-20, 20]; loading "tmp_shot" brings back value and constancy flag only, so the search
downwards answers 20, while `findSigma` applied to the state saved as "tmp_shot" answers
10. -/
theorem findSigma_range_change_leaks :
    (sigmaStep rangeChanging "total" (Dbl.fin 0)
        (saveSnapshot demoWorkspace "tmp_shot" ([0] ++ [1])) [1] [Dbl.fin 1]).pois_down =
      [Dbl.fin 20] ∧
    (rangeChanging.findSigma demoWorkspace.vars (Dbl.fin 0) 1 (Dbl.fin 1) (-1)).1 =
      Dbl.fin 10 ∧
    breakdown rangeChanging (demoSettings "add" "total") =
      .ok ⟨"output/out/root-files/breakdown_add/total.root", "total", 3,
        [("mu", kick), ("poi_up", Dbl.fin 10), ("poi_down", Dbl.fin 20)]⟩ :=
  ⟨rfl, rfl, rfl⟩

/-- C9, amended. In the evaluation of "total", when `findSigma` changes nothing but the
values and the constancy flags of the nuisance and POI parameters (`FindSigmaConfined`),
the sigma recorded for each POI in each direction is `findSigma` applied to the
parameter state saved as "tmp_shot" after the fit, so it does not depend on the searches
run before it; and running the evaluation again, from the workspace the first run
leaves, gives the same `pois_up` and `pois_down`. -/
theorem total_sigmas_start_from_tmp_shot (ext : Collaborators) (nuis pois : List Ptr)
    (hconf : FindSigmaConfined ext (nuis ++ pois)) (ws5 : RooWorkspace)
    (nll_val_true : Dbl) (pois_hat : List Dbl) :
    (sigmaStep ext "total" nll_val_true (saveSnapshot ws5 "tmp_shot" (nuis ++ pois))
        pois pois_hat).pois_up =
      (pois.zip pois_hat).map (fun ph => (ext.findSigma ws5.vars nll_val_true ph.1 ph.2 1).1) ∧
    (sigmaStep ext "total" nll_val_true (saveSnapshot ws5 "tmp_shot" (nuis ++ pois))
        pois pois_hat).pois_down =
      (pois.zip pois_hat).map
        (fun ph => (ext.findSigma ws5.vars nll_val_true ph.1 ph.2 (-1)).1) ∧
    (sigmaStep ext "total" nll_val_true
        (sigmaStep ext "total" nll_val_true (saveSnapshot ws5 "tmp_shot" (nuis ++ pois))
          pois pois_hat).ws pois pois_hat).pois_up =
      (sigmaStep ext "total" nll_val_true (saveSnapshot ws5 "tmp_shot" (nuis ++ pois))
        pois pois_hat).pois_up ∧
    (sigmaStep ext "total" nll_val_true
        (sigmaStep ext "total" nll_val_true (saveSnapshot ws5 "tmp_shot" (nuis ++ pois))
          pois pois_hat).ws pois pois_hat).pois_down =
      (sigmaStep ext "total" nll_val_true (saveSnapshot ws5 "tmp_shot" (nuis ++ pois))
        pois pois_hat).pois_down := by
  have hsnap : (saveSnapshot ws5 "tmp_shot" (nuis ++ pois)).snapshots "tmp_shot" =
      some (capture ws5.vars (nuis ++ pois)) := by
    simp [saveSnapshot]
  have hagree : AgreesOff (nuis ++ pois) (saveSnapshot ws5 "tmp_shot" (nuis ++ pois)).vars
      ws5.vars := agreesOff_refl _ _
  obtain ⟨h1, h2, h3, h4⟩ := sigmaStep_total_spec ext nuis pois hconf nll_val_true ws5.vars
    pois_hat _ hsnap hagree
  obtain ⟨k1, k2, _, _⟩ := sigmaStep_total_spec ext nuis pois hconf nll_val_true ws5.vars
    pois_hat _ h3 h4
  exact ⟨h1, h2, k1.trans h1.symm, k2.trans h2.symm⟩

/-- The amended C9 on `demoCollaborators`, whose `findSigma` leaves the POI constant: the
sigmas up and down recorded for "mu" are those of `findSigma` on the saved state. -/
theorem total_sigmas_start_from_tmp_shot_witness :
    FindSigmaConfined demoCollaborators ([0] ++ [1]) ∧
    (sigmaStep demoCollaborators "total" (Dbl.fin 0)
        (saveSnapshot demoWorkspace "tmp_shot" ([0] ++ [1])) [1] [Dbl.fin 1]).pois_up =
      ([(1 : Ptr)].zip [Dbl.fin 1]).map
        (fun ph => (demoCollaborators.findSigma demoWorkspace.vars (Dbl.fin 0) ph.1 ph.2 1).1) ∧
    (sigmaStep demoCollaborators "total" (Dbl.fin 0)
        (saveSnapshot demoWorkspace "tmp_shot" ([0] ++ [1])) [1] [Dbl.fin 1]).pois_down =
      ([(1 : Ptr)].zip [Dbl.fin 1]).map
        (fun ph =>
          (demoCollaborators.findSigma demoWorkspace.vars (Dbl.fin 0) ph.1 ph.2 (-1)).1) :=
  ⟨demo_findSigma_confined,
    (total_sigmas_start_from_tmp_shot demoCollaborators [0] [1] demo_findSigma_confined
      demoWorkspace (Dbl.fin 0) [Dbl.fin 1]).1,
    (total_sigmas_start_from_tmp_shot demoCollaborators [0] [1] demo_findSigma_confined
      demoWorkspace (Dbl.fin 0) [Dbl.fin 1]).2.1⟩

/-- C7. The claim fails on the code for every group other than "total"; here the group
"systA" on a model with the single POI "mu": the per-group step leaves `pois_up` and
`pois_down` empty, and `breakdown` then reads `pois_up[0]` past the end of the vector. -/
theorem breakdown_systA_reads_past_end :
    (sigmaStep demoCollaborators "systA" (Dbl.fin 0) demoWorkspace [1] [Dbl.fin 1]).pois_up = [] ∧
    (sigmaStep demoCollaborators "systA" (Dbl.fin 0) demoWorkspace [1] [Dbl.fin 1]).pois_down
      = [] ∧
    breakdown demoCollaborators (demoSettings "add" "systA") = .error .outOfRange :=
  ⟨rfl, rfl, rfl⟩

/-- C8, as stated, fails: the group document `demoDoc` defines no group whose name is, or
even contains, "total", and `breakdown` on "total" returns and writes the output file
with the record of the POI "mu". -/
theorem breakdown_total_not_in_document :
    demoCollaborators.parseFile (demoSettings "add" "total").xmlName = some demoDoc ∧
    (∀ c ∈ demoDoc, hasSub c.name "total" = false) ∧
    breakdown demoCollaborators (demoSettings "add" "total") =
      .ok ⟨"output/out/root-files/breakdown_add/total.root", "total", 3,
        [("mu", kick), ("poi_up", Dbl.fin 2), ("poi_down", Dbl.fin 3)]⟩ :=
  ⟨rfl, by decide, rfl⟩

/-- C8, amended. `breakdown` does not read the group document and has no GroupNotFound
failure: on the group name "total", with workspace, ModelConfig, dataset, POI set,
nuisance set, global observables and pdf present, the per-group step records one sigma
up and one sigma down per POI, and `breakdown` returns and writes the output file
"total.root" whose histogram "total" has three bins per POI, in the order of the POIs:
the best-fit value under the name of the POI, the absolute value of the sigma up under
"poi_up", and the absolute value of the sigma down under "poi_down"; this whatever the
group document holds and whatever file is named as the document. -/
theorem breakdown_total_whatever_document (ext : Collaborators) (config : settings)
    (ws0 : RooWorkspace) (mc : ModelConfig) (pois nuis globs : List Ptr)
    (hcat : config.catecory2eval = "total")
    (hws : ext.getWorkspace config.inFileName config.wsName = some ws0)
    (hmc : ws0.obj config.modelConfigName = some mc)
    (hdata : ws0.data (datasetOf config.dataName) = true)
    (hpois : mc.pois = some pois) (hnuis : mc.nuis = some nuis)
    (hglobs : mc.globs = some globs) (hpdf : mc.pdf = true) :
    (fittedSigmas ext "total" ws0 config.dataName pois nuis).pois_up.length = pois.length ∧
    (fittedSigmas ext "total" ws0 config.dataName pois nuis).pois_down.length = pois.length ∧
    (recordBins
        ((pois.map (fun poi =>
          ((fittedSigmas ext "total" ws0 config.dataName pois nuis).ws.vars poi).name)).zip
          (pois.map (fun poi => ((fitted ext ws0 config.dataName pois nuis).vars poi).val)))
        (fittedSigmas ext "total" ws0 config.dataName pois nuis).pois_up
        (fittedSigmas ext "total" ws0 config.dataName pois nuis).pois_down).length =
      3 * pois.length ∧
    ∀ (parse : String → Option GroupDoc) (xmlName : String),
      breakdown { ext with parseFile := parse } { config with xmlName := xmlName } = .ok
        { fileName := "output/" ++ config.folder ++ "/root-files/breakdown_" ++
            config.technique ++ "/" ++ "total" ++ ".root",
          histName := "total",
          nbins := 3 * pois.length,
          bins := recordBins
            ((pois.map (fun poi =>
              ((fittedSigmas ext "total" ws0 config.dataName pois nuis).ws.vars poi).name)).zip
              (pois.map (fun poi => ((fitted ext ws0 config.dataName pois nuis).vars poi).val)))
            (fittedSigmas ext "total" ws0 config.dataName pois nuis).pois_up
            (fittedSigmas ext "total" ws0 config.dataName pois nuis).pois_down } := by
  obtain ⟨hu, hd⟩ := sigmaStep_total_length ext
    (ext.nllVal (fitted ext ws0 config.dataName pois nuis).vars)
    (fitted ext ws0 config.dataName pois nuis) pois
    (pois.map (fun poi => ((fitted ext ws0 config.dataName pois nuis).vars poi).val))
    (List.length_map _ _)
  refine ⟨hu, hd, ?_, fun parse xmlName => ?_⟩
  · rw [recordBins_length]
    · simp [List.length_zip]
    · simp only [List.length_zip, List.length_map, Nat.min_self]
      exact Nat.le_of_eq hu.symm
    · simp only [List.length_zip, List.length_map, Nat.min_self]
      exact Nat.le_of_eq hd.symm
  · rw [breakdown_ignores_document,
      breakdown_eq_evaluate ext config ws0 mc pois nuis globs hws hmc hdata hpois hnuis
        hglobs hpdf,
      evaluate_total_ok ext config pois _ hcat]
    rfl

/-- The amended C8 on `demoCollaborators`, whose model has the one POI "mu": with no
group document at all, the output holds the best-fit value 1.1 and the sigmas 2 and 3. -/
theorem breakdown_total_whatever_document_witness :
    (demoSettings "add" "total").catecory2eval = "total" ∧
    breakdown { demoCollaborators with parseFile := fun _ => none }
        { demoSettings "add" "total" with xmlName := "config/none.xml" } =
      .ok ⟨"output/out/root-files/breakdown_add/total.root", "total", 3,
        [("mu", kick), ("poi_up", Dbl.fin 2), ("poi_down", Dbl.fin 3)]⟩ :=
  ⟨rfl,
    (breakdown_total_whatever_document demoCollaborators (demoSettings "add" "total")
      demoWorkspace ⟨some [1], some [0], some [], true⟩ [1] [0] [] rfl rfl rfl rfl rfl rfl rfl
      rfl).2.2.2 (fun _ => none) "config/none.xml"⟩

/-- Without a POI set, or without a pdf, `breakdown` uses a null pointer. -/
theorem breakdown_null_pointer (ext : Collaborators) (config : settings) (ws0 : RooWorkspace)
    (mc : ModelConfig) (nuis globs : List Ptr)
    (hws : ext.getWorkspace config.inFileName config.wsName = some ws0)
    (hmc : ws0.obj config.modelConfigName = some mc)
    (hdata : ws0.data (datasetOf config.dataName) = true)
    (hnuis : mc.nuis = some nuis) (hglobs : mc.globs = some globs)
    (hnull : mc.pois = none ∨ mc.pdf = false) :
    breakdown ext config = .error .nullPointer := by
  unfold breakdown
  rcases hnull with h | h
  · simp [hws, hmc, h, openData_dataset, hdata]
  · cases hp : mc.pois <;> simp [hws, hmc, hp, hnuis, hglobs, h, openData_dataset, hdata]

/-! ## Results on `addParams` -/

/-- C5, as stated, fails when no group matches the requested name: under the technique
"add" the name "foo" matches no group of `demoDoc`, and `addParams` returns the empty
list, without the member "gamma_stat" of the statistical group. -/
theorem addParams_additive_no_match :
    hasSub "add" "add" = true ∧ hasSub "foo" "statistical" = false ∧
    demoCollaborators.parseFile (demoSettings "add" "foo").xmlName = some demoDoc ∧
    "gamma_stat" ∈ membersOf demoDoc "statistical" ∧
    addParams demoCollaborators (demoSettings "add" "foo") 2 "foo" = some (.ok []) :=
  ⟨by decide, by decide, rfl, by decide, rfl⟩

/-- C5, amended. For an additive technique and a requested name that does not contain
"statistical" and matches exactly one group, when the matching group and the statistical
groups carry a `breakdown` attribute and the nested runs for breakdown targets among
them return, `addParams` returns the members of the statistical groups followed by the
members of the groups whose name matches: the list contains every member of the
statistical groups and every member of every group whose name matches the requested
name, with the statistical members placed first. -/
theorem addParams_additive_statistical_first (ext : Collaborators) (config : settings)
    (doc : GroupDoc) (t : String) (fuel : Nat) (group : Category)
    (hadd : hasSub config.technique "add" = true) (ht : hasSub t "statistical" = false)
    (hdoc : ext.parseFile config.xmlName = some doc) (hfuel : 2 ≤ fuel)
    (hone : doc.filter (fun c => hasSub c.name t) = [group])
    (hn : ∀ c ∈ doc, hasSub c.name t = true ∨ hasSub c.name "statistical" = true →
      GroupReturns ext config c) :
    addParams ext config fuel t =
      some (.ok (membersOf doc "statistical" ++ membersOf doc t)) ∧
    (∀ m, m ∈ membersOf doc "statistical" ++ membersOf doc t ↔
      (∃ c ∈ doc, "statistical".data <:+: c.name.data ∧ m ∈ members c) ∨
      (∃ c ∈ doc, t.data <:+: c.name.data ∧ m ∈ members c)) := by
  refine ⟨?_, fun m => ?_⟩
  · rw [addParams_add ext config doc t fuel ⟨hadd, ht⟩ hdoc hfuel hn]
    simp [membersOf, hone]
  · rw [List.mem_append, mem_membersOf, mem_membersOf]

/-- The amended C5 on `demoDoc`, for the technique "add" and the name "systA": the list
is the statistical member "gamma_stat" followed by the member "alpha" of "systA". -/
theorem addParams_additive_statistical_first_witness :
    addParams demoCollaborators (demoSettings "add" "systA") 2 "systA" =
      some (.ok ["gamma_stat", "alpha"]) :=
  (addParams_additive_statistical_first demoCollaborators (demoSettings "add" "systA")
    demoDoc "systA" 2 ⟨"systA", some "no", [⟨[("name", "alpha")]⟩]⟩ (by decide) (by decide)
    rfl (by decide) (by decide) (fun c hc _ => demoDoc_returns _ c hc)).1

/-- C6, as stated, fails: the name "foo" matches no group of `demoDoc`, and `addParams`
returns the empty list instead of failing. -/
theorem addParams_no_match_returns_empty :
    demoCollaborators.parseFile (demoSettings "sub" "foo").xmlName = some demoDoc ∧
    (∀ c ∈ demoDoc, hasSub c.name "foo" = false) ∧
    addParams demoCollaborators (demoSettings "sub" "foo") 2 "foo" = some (.ok []) :=
  ⟨rfl, by decide, rfl⟩

/-- C6, amended. `addParams` has no GroupNotFound failure. When the requested name
matches no group of the document it returns the empty list; when it matches only groups
without members, each carrying a `breakdown` attribute, and the technique is not
additive or the name contains "statistical", it returns the empty list as well. -/
theorem addParams_empty_list (ext : Collaborators) (config : settings) (doc : GroupDoc)
    (t : String) (fuel : Nat) (hdoc : ext.parseFile config.xmlName = some doc)
    (hfuel : 1 ≤ fuel) :
    ((∀ c ∈ doc, hasSub c.name t = false) → addParams ext config fuel t = some (.ok [])) ∧
    ((∀ c ∈ doc, hasSub c.name t = true → c.breakdown ≠ none ∧ members c = []) →
      ¬ (hasSub config.technique "add" = true ∧ hasSub t "statistical" = false) →
      addParams ext config fuel t = some (.ok [])) := by
  constructor
  · intro hno
    obtain ⟨k, rfl⟩ : ∃ k, fuel = k + 1 := ⟨fuel - 1, by omega⟩
    simp only [addParams, hdoc]
    exact catLoop_no_match ext config _ t doc [] hno
  · intro hempty hflat
    have hn : ∀ c ∈ doc, hasSub c.name t = true → GroupReturns ext config c := by
      intro c hc hm
      obtain ⟨hattr, hmem⟩ := hempty c hc hm
      obtain ⟨attr, ha⟩ := Option.ne_none_iff_exists'.1 hattr
      refine ⟨attr, ha, fun _ systName hs => ?_⟩
      rw [hmem] at hs
      exact absurd hs (List.not_mem_nil _)
    rw [addParams_flat ext config doc t fuel hflat hdoc hfuel hn]
    have : membersOf doc t = [] := by
      simp only [membersOf, List.flatMap_eq_nil_iff, List.mem_filter]
      exact fun c hc => (hempty c hc.1 hc.2).2
    rw [this]

/-- The amended C6 on `demoDoc`, for the name "foo" that matches no group. -/
theorem addParams_empty_list_witness :
    demoCollaborators.parseFile (demoSettings "sub" "foo").xmlName = some demoDoc ∧ 1 ≤ 2 ∧
    ((∀ c ∈ demoDoc, hasSub c.name "foo" = false) →
      addParams demoCollaborators (demoSettings "sub" "foo") 2 "foo" = some (.ok [])) :=
  ⟨rfl, by decide,
    (addParams_empty_list demoCollaborators (demoSettings "sub" "foo") demoDoc "foo" 2 rfl
      (by decide)).1⟩

/-- C10, as stated, fails when a matching group is a breakdown target whose nested run
does not return: under the technique "sub" the name "syst" matches the group "systA" of
`targetDoc`, which carries `breakdown="yes"`; `addParams` calls `breakdown` for the
member "alpha", which ends in `exit(1)` because the input file holds no workspace, and
no list is returned. -/
theorem addParams_nested_run_exits :
    hasSub "sub" "add" = false ∧
    noWorkspace.parseFile (demoSettings "sub" "syst").xmlName = some targetDoc ∧
    membersOf targetDoc "syst" = ["alpha"] ∧
    addParams noWorkspace (demoSettings "sub" "syst") 2 "syst" = some (.error .exit1) :=
  ⟨by decide, rfl, by decide, rfl⟩

/-- C10, amended. For a technique that does not contain "add", and when every group whose
name contains the requested name carries a `breakdown` attribute and the nested runs for
breakdown targets among these groups return, `addParams` returns, in document order, the
attribute values of the child elements of exactly the groups whose name contains the
requested name as a substring, each such group giving all of its members. -/
theorem addParams_substring_members (ext : Collaborators) (config : settings)
    (doc : GroupDoc) (t : String) (fuel : Nat)
    (htech : hasSub config.technique "add" = false)
    (hdoc : ext.parseFile config.xmlName = some doc) (hfuel : 1 ≤ fuel)
    (hn : ∀ c ∈ doc, hasSub c.name t = true → GroupReturns ext config c) :
    addParams ext config fuel t =
      some (.ok ((doc.filter (fun c => hasSub c.name t)).flatMap members)) ∧
    (∀ m, m ∈ (doc.filter (fun c => hasSub c.name t)).flatMap members ↔
      ∃ c ∈ doc, t.data <:+: c.name.data ∧ m ∈ members c) :=
  ⟨addParams_flat ext config doc t fuel (by simp [htech]) hdoc hfuel hn,
    fun m => mem_membersOf doc t m⟩

/-- The amended C10 on `targetDoc`, whose group "systA" is a breakdown target; the nested
run returns because the model has no POI. -/
theorem addParams_substring_members_witness :
    hasSub (demoSettings "sub" "syst").technique "add" = false ∧
    addParams noPoi (demoSettings "sub" "syst") 2 "syst" = some (.ok ["alpha"]) :=
  ⟨by decide,
    (addParams_substring_members noPoi (demoSettings "sub" "syst") targetDoc "syst" 2
      (by decide) rfl (by decide) (fun c hc _ => targetDoc_returns "sub" "syst" c hc)).1⟩

/-- With the workspace present and one POI in the model, the nested run that `addParams`
starts for the member "alpha" of the breakdown target "systA" evaluates a category other
than "total" and reads `pois_up[0]` past the end of the vector. -/
theorem addParams_nested_run_reads_past_end :
    addParams withTargets (demoSettings "sub" "syst") 2 "syst" = some (.error .outOfRange) :=
  rfl

/-- A matching group without `breakdown` attribute: `addParams` builds a `std::string`
from the null pointer that `GetAttr` answers, and no list is returned. -/
theorem addParams_no_attribute :
    addParams { demoCollaborators with parseFile := fun _ => some bareDoc }
      (demoSettings "sub" "syst") 2 "syst" = some (.error .nullPointer) :=
  rfl

/-- The substring match of `addParams` at work: under "sub" the name "syst" collects the
members of both "systA" and "systB"; under "add" the list is replaced by the statistical
list at every matching group, so the member of "systA" is gone from the result. -/
theorem addParams_syst_example :
    addParams demoCollaborators (demoSettings "sub" "syst") 2 "syst" =
      some (.ok ["alpha", "beta"]) ∧
    addParams demoCollaborators (demoSettings "add" "syst") 2 "syst" =
      some (.ok ["gamma_stat", "beta"]) :=
  ⟨rfl, rfl⟩

end HepStatTool
